import Mathlib

/-! spider-scheduler: a shallow embedding of `main.go`.

The program talks to three external services through client libraries:
a relational store (gorm over MySQL), a key/value server (go-redis) and a
timer library (gocron).  Their state is made explicit here:

* `DB` holds the three tables created by `AutoMigrate`, each a list of rows in
  insertion order.  The columns are the ones gorm derives from the structs:
  the primary key `ID` is a 32-bit unsigned auto-increment column, every string
  is a `varchar(255)`, `Seed.Url` and `URL.Url` carry a unique index, and
  `Task.Status` has the column default `'stopped'`.  Of the fields of
  `gorm.Model`, `ID` and `DeletedAt` are kept, since the queries gorm builds
  use them; `CreatedAt` and `UpdatedAt` are never read and are left out.
* `Redis` holds the four keys the program uses: the set `urls`, the sorted set
  `visited`, and the lists `tasks` and `worker`.  A list is written left to
  right, so `LPush` adds at the front and `RPop` removes at the back.
* The timer library only stores the registered jobs; a job is an interval and
  the function to run at each firing.

Both services are taken to be reachable: a call fails only for a reason the
data itself gives (a constraint, a column too small, an empty list, a missing
row).
The wall clock is an explicit argument wherever `time.Now()` is read, and
`time.Sleep` changes no state.
-/

namespace SpiderScheduler

/-! ## Data model -/

/-- Status of a crawl task; in the source a string type. -/
abbrev TaskStatus := String

def Stopped : TaskStatus := "stopped"
def Running : TaskStatus := "running"
def Paused : TaskStatus := "paused"

/-- Row of the table of crawl targets. -/
structure URL where
  ID : Nat
  DeletedAt : Option Int
  Url : String
deriving DecidableEq, Repr

/-- Row of the table of seeds. -/
structure Seed where
  ID : Nat
  DeletedAt : Option Int
  Url : String
deriving DecidableEq, Repr

/-- Row of the table of tasks. -/
structure Task where
  ID : Nat
  DeletedAt : Option Int
  Name : String
  Url : String
  Status : TaskStatus
deriving DecidableEq, Repr

/-- Zero value of `Task`, what `var task Task` declares. -/
instance : Inhabited Task := ⟨⟨0, none, "", "", ""⟩⟩

/-- Errors the store reports. -/
inductive StoreError where
  | ConstraintViolation
  | DataTooLong
  | RecordNotFound
deriving DecidableEq, Repr

/-- State of the relational store. -/
structure DB where
  urls : List URL
  seeds : List Seed
  tasks : List Task
deriving DecidableEq, Repr

/-- Member of a sorted set with its score. -/
structure Z where
  Score : Int
  Member : String
deriving DecidableEq, Repr

/-- State of the key/value server: the keys `urls`, `visited`, `tasks`, `worker`. -/
structure Redis where
  urls : List String
  visited : List Z
  tasks : List String
  worker : List Nat
deriving DecidableEq, Repr

/-- The functions of `encoding/json` at type `Task`. -/
structure JSON where
  Marshal : Task → Except String String
  Unmarshal : String → Except String Task

/-- Everything the program can change: both services and the log output. -/
structure World where
  db : DB
  rdb : Redis
  log : List String
deriving DecidableEq, Repr

/-- Job held by the timer library. -/
structure Job where
  interval : Nat
  Do : World → World

/-! ## Store operations -/

/-- Largest value of the key column, a 32-bit unsigned integer. -/
def maxKey : Nat := 4294967295

/-- Whether a string fits a `varchar(255)` column. -/
def fits (s : String) : Bool := decide (s.length ≤ 255)

/-- Next value of an auto-increment key: one past the largest key in use. -/
def nextID (ids : List Nat) : Nat := ids.foldr max 0 + 1

/-- The key a row is stored under: a zero key is assigned by the store, a key
beyond the column is stored as the largest key of the column. -/
def storedKey (ids : List Nat) (id : Nat) : Nat :=
  if id = 0 then nextID ids else min id maxKey

/-- Load by primary key: `db.First(&out, id)`.  Rows marked deleted are not
seen.  When no row is found, `out` is left as it was and the error is
`RecordNotFound`. -/
def DB.FirstTask (db : DB) (out : Task) (id : Nat) : Task × Option StoreError :=
  match db.tasks.find? (fun r => r.ID == id && r.DeletedAt.isNone) with
  | some r => (r, none)
  | none => (out, some StoreError.RecordNotFound)

/-- Insert of a seed: `db.Create(&Seed{...})`.  A URL that does not fit the
column, a URL some row already has (unique index) and a key that is taken or
exhausted are rejected; a zero `ID` is assigned by the store. -/
def DB.CreateSeed (db : DB) (seed : Seed) : DB × Seed × Option StoreError :=
  if ¬ fits seed.Url then
    (db, seed, some StoreError.DataTooLong)
  else if db.seeds.any (fun r => r.Url == seed.Url) then
    (db, seed, some StoreError.ConstraintViolation)
  else
    let key := storedKey (db.seeds.map Seed.ID) seed.ID
    if maxKey < key ∨ db.seeds.any (fun r => r.ID == key) then
      (db, seed, some StoreError.ConstraintViolation)
    else
      let row : Seed := { seed with ID := key }
      ({ db with seeds := db.seeds ++ [row] },
        if seed.ID = 0 then row else seed, none)

/-- Insert of a task: `db.Create(task)`.  A string that does not fit its column
and a key that is taken or exhausted are rejected.  A zero `ID` is assigned by
the store and written back; an empty `Status` is stored as the column default
and read back from the stored row when that row can be loaded. -/
def DB.CreateTask (db : DB) (task : Task) : DB × Task × Option StoreError :=
  if ¬ (fits task.Name ∧ fits task.Url ∧ fits task.Status) then
    (db, task, some StoreError.DataTooLong)
  else
    let key := storedKey (db.tasks.map Task.ID) task.ID
    if maxKey < key ∨ db.tasks.any (fun r => r.ID == key) then
      (db, task, some StoreError.ConstraintViolation)
    else
      let row : Task :=
        { task with ID := key, Status := if task.Status = "" then Stopped else task.Status }
      let db2 : DB := { db with tasks := db.tasks ++ [row] }
      let out : Task := if task.ID = 0 then { task with ID := key } else task
      let out : Task :=
        if task.Status = "" then { out with Status := (db2.FirstTask out out.ID).1.Status }
        else out
      (db2, out, none)

/-- Upsert of a task: `db.Save(task)`.  With a non-zero key the rows of that key
that are not marked deleted are overwritten, all columns including the
soft-delete mark; when there is no such row, or the key is zero, the task is
inserted.  A string that does not fit its column is rejected. -/
def DB.SaveTask (db : DB) (task : Task) : DB × Task × Option StoreError :=
  if task.ID ≠ 0 then
    if ¬ (fits task.Name ∧ fits task.Url ∧ fits task.Status) then
      (db, task, some StoreError.DataTooLong)
    else if db.tasks.any (fun r => r.ID == task.ID && r.DeletedAt.isNone) then
      let rows := db.tasks.map (fun r => if r.ID = task.ID ∧ r.DeletedAt = none then task else r)
      ({ db with tasks := rows }, task, none)
    else db.CreateTask task
  else db.CreateTask task

/-! ## Key/value operations -/

/-- Set insert `SADD`: adds the member unless it is already there. -/
def SAdd (s : List String) (m : String) : List String :=
  if m ∈ s then s else s ++ [m]

/-- Order of a sorted set: by score, ties by member. -/
def Z.le (a b : Z) : Bool :=
  decide (a.Score < b.Score) || (a.Score == b.Score && !decide (b.Member < a.Member))

/-- Insert at the position the order gives. -/
def zinsert (z : Z) : List Z → List Z
  | [] => [z]
  | y :: ys => if Z.le z y then z :: y :: ys else y :: zinsert z ys

/-- Sorted-set insert `ZADD`: a member is held once; adding it again replaces
its score. -/
def ZAdd (s : List Z) (z : Z) : List Z :=
  zinsert z (s.filter (fun y => y.Member != z.Member))

/-- List push at the left end, `LPUSH`. -/
def LPush {α : Type} (l : List α) (v : α) : List α := v :: l

/-- List pop at the right end, `RPOP`; nothing on an empty list. -/
def RPop {α : Type} (l : List α) : Option α × List α :=
  match l.getLast? with
  | none => (none, l)
  | some v => (some v, l.dropLast)

/-- Pop at the right end and push at the left end of the same list,
`RPOPLPUSH key key`; nothing on an empty list. -/
def RPopLPush {α : Type} (l : List α) : Option α × List α :=
  match RPop l with
  | (none, l') => (none, l')
  | (some v, l') => (some v, LPush l' v)

/-- Message of the error the client returns for an empty reply. -/
def redisNil : String := "redis: nil"

/-! ## The program -/

def addURL (rdb : Redis) (url : String) : Redis :=
  { rdb with urls := SAdd rdb.urls url }

def addVisitedURL (now : Int) (rdb : Redis) (url : String) : Redis :=
  { rdb with visited := ZAdd rdb.visited ⟨now, url⟩ }

def getNewURLs (_url : String) : List String × Option String :=
  (["http://www.example.com/new1", "http://www.example.com/new2",
    "http://www.example.com/new3"], none)

/-- The crawl step; `now` is the clock read when the page is recorded. -/
def spider (now : Int) (w : World) (url : String) : World :=
  let w := { w with log := w.log ++ ["正在爬取：" ++ url] }
  let w := { w with rdb := addVisitedURL now w.rdb url }
  let (urls, err) := getNewURLs url
  let w := match err with
    | some e => { w with log := w.log ++ [e] }
    | none => w
  urls.foldl (fun w u => { w with rdb := addURL w.rdb u }) w

def StartTask (db : DB) (task : Task) : DB × Task × Option StoreError :=
  db.SaveTask { task with Status := Running }

def PauseTask (db : DB) (task : Task) : DB × Task × Option StoreError :=
  db.SaveTask { task with Status := Paused }

def StopTask (db : DB) (task : Task) : DB × Task × Option StoreError :=
  db.SaveTask { task with Status := Stopped }

def AddTaskToQueue (json : JSON) (rdb : Redis) (task : Task) : Redis × Option String :=
  match json.Marshal task with
  | Except.error e => (rdb, some e)
  | Except.ok taskJSON => ({ rdb with tasks := LPush rdb.tasks taskJSON }, none)

/-- The function `ScheduleTask` hands to the timer: one firing. -/
def trigger (json : JSON) (w : World) : World :=
  match RPop w.rdb.tasks with
  | (none, _) => { w with log := w.log ++ [redisNil] }
  | (some taskJSON, rest) =>
    let w := { w with rdb := { w.rdb with tasks := rest } }
    match json.Unmarshal taskJSON with
    | Except.error e => { w with log := w.log ++ [e] }
    | Except.ok t => { w with rdb := { w.rdb with worker := LPush w.rdb.worker t.ID } }

/-- Creates the seed and the task, then registers the trigger; the results of
both inserts are dropped, as in the source. -/
def ScheduleTask (json : JSON) (w : World) (jobs : List Job)
    (name url : String) (_priority : Int) (interval : Nat) : World × List Job :=
  let (db, _, _) := w.db.CreateSeed { ID := 0, DeletedAt := none, Url := url }
  let (db, _, _) :=
    db.CreateTask { ID := 0, DeletedAt := none, Name := name, Url := url, Status := Stopped }
  ({ w with db := db }, jobs ++ [{ interval := interval, Do := trigger json }])

/-- One pass through the body of the worker loop of `main`. -/
def workerIteration (now : Int) (w : World) : World :=
  match RPopLPush w.rdb.worker with
  | (none, _) => { w with log := w.log ++ [redisNil] }
  | (some taskID, worker) =>
    let w := { w with rdb := { w.rdb with worker := worker } }
    let (task, _) := w.db.FirstTask default taskID
    if task.Status ≠ Running then w
    else spider now w task.Url

/-- The worker loop run for as many passes as clock readings are given. -/
def workerLoop (nows : List Int) (w : World) : World :=
  nows.foldl (fun w now => workerIteration now w) w

/-- The ready queue after enqueuing the tasks one after the other. -/
def enqueueAll (json : JSON) (rdb : Redis) (tasks : List Task) : Redis :=
  tasks.foldl (fun r t => (AddTaskToQueue json r t).1) rdb

/-- The worker queue after `k` claims. -/
def rotateN {α : Type} (k : Nat) (l : List α) : List α :=
  (fun l => (RPopLPush l).2)^[k] l

/-! ## Concrete instances -/

/-- Reads a decimal numeral. -/
def parseDigits (cs : List Char) : Option Nat :=
  cs.foldl
    (fun acc c => acc.bind (fun n => if c.isDigit then some (n * 10 + (c.toNat - 48)) else none))
    (some 0)

/-- A stand-in codec for concrete instances: a task is written as its key in
decimal and read back with the other fields empty; any other text is an error. -/
def sampleCodec : JSON where
  Marshal := fun t => Except.ok (Nat.repr t.ID)
  Unmarshal := fun s =>
    match s.data with
    | [] => Except.error "unexpected end of JSON input"
    | cs =>
      match parseDigits cs with
      | some n => Except.ok ⟨n, none, "", "", ""⟩
      | none => Except.error "invalid character"

/-- A URL of 256 characters, one more than a string column holds. -/
def longURL : String := String.mk (List.replicate 256 'a')

/-- The state right after start-up: empty tables, empty keys, nothing logged. -/
def emptyWorld : World := ⟨⟨[], [], []⟩, ⟨[], [], [], []⟩, []⟩

/-! ## Lists as queues -/

theorem RPop_nil {α : Type} : RPop ([] : List α) = (none, []) := rfl

theorem RPop_append_singleton {α : Type} (l : List α) (v : α) :
    RPop (l ++ [v]) = (some v, l) := by
  simp [RPop]

theorem RPopLPush_nil {α : Type} : RPopLPush ([] : List α) = (none, []) := rfl

theorem RPopLPush_append_singleton {α : Type} (l : List α) (v : α) :
    RPopLPush (l ++ [v]) = (some v, v :: l) := by
  simp [RPopLPush, RPop_append_singleton, LPush]

theorem RPopLPush_reverse_cons {α : Type} (a : α) (rest : List α) :
    RPopLPush (a :: rest).reverse = (some a, (rest ++ [a]).reverse) := by
  rw [List.reverse_cons, RPopLPush_append_singleton]
  simp

theorem RPopLPush_perm {α : Type} (l : List α) : List.Perm (RPopLPush l).2 l := by
  rcases List.eq_nil_or_concat l with rfl | ⟨l', v, rfl⟩
  · simp [RPopLPush_nil]
  · rw [List.concat_eq_append, RPopLPush_append_singleton]
    exact (List.perm_append_singleton v l').symm

theorem RPopLPush_none {α : Type} (l rest : List α) (h : RPopLPush l = (none, rest)) :
    l = [] ∧ rest = [] := by
  rcases List.eq_nil_or_concat l with rfl | ⟨l', v, rfl⟩
  · simpa [RPopLPush_nil] using h.symm
  · rw [List.concat_eq_append, RPopLPush_append_singleton] at h
    simp at h

theorem RPopLPush_some {α : Type} (l rest : List α) (v : α)
    (h : RPopLPush l = (some v, rest)) : l = rest.tail ++ [v] ∧ rest = v :: rest.tail := by
  rcases List.eq_nil_or_concat l with rfl | ⟨l', x, rfl⟩
  · simp [RPopLPush_nil] at h
  · rw [List.concat_eq_append, RPopLPush_append_singleton] at h
    simp only [Prod.mk.injEq, Option.some.injEq] at h
    obtain ⟨rfl, rfl⟩ := h
    simp

theorem rotateN_succ {α : Type} (k : Nat) (l : List α) :
    rotateN (k + 1) l = rotateN k (RPopLPush l).2 := by
  simp [rotateN, Function.iterate_succ_apply]

theorem rotateN_perm {α : Type} (k : Nat) (l : List α) : List.Perm (rotateN k l) l := by
  induction k generalizing l with
  | zero => simp [rotateN]
  | succ k ih =>
    rw [rotateN_succ]
    exact (ih _).trans (RPopLPush_perm l)

theorem rotateN_reverse {α : Type} (k : Nat) (ids : List α) :
    rotateN k ids.reverse = (ids.rotate k).reverse := by
  induction k generalizing ids with
  | zero => simp [rotateN]
  | succ k ih =>
    rw [rotateN_succ]
    cases ids with
    | nil => simpa [RPopLPush_nil] using ih []
    | cons a rest =>
      rw [RPopLPush_reverse_cons]
      simp only
      rw [ih, ← List.rotate_cons_succ]

theorem RPopLPush_reverse_fst {α : Type} (ids : List α) :
    (RPopLPush ids.reverse).1 = ids.head? := by
  cases ids with
  | nil => rfl
  | cons a rest => rw [RPopLPush_reverse_cons]; rfl

theorem foldl_LPush {α : Type} (ids acc : List α) :
    ids.foldl LPush acc = ids.reverse ++ acc := by
  induction ids generalizing acc with
  | nil => rfl
  | cons a rest ih => simp [List.foldl_cons, ih, LPush]

theorem foldl_LPush_nil {α : Type} (ids : List α) : ids.foldl LPush [] = ids.reverse := by
  simp [foldl_LPush]

theorem head?_rotate {α : Type} (ids : List α) (k : Nat) (hne : ids ≠ []) :
    (ids.rotate k).head? = ids[k % ids.length]? := by
  have hpos : 0 < ids.length := List.length_pos.mpr hne
  rw [List.head?_eq_getElem?, List.getElem?_rotate hpos]
  simp

/-! ## The crawl step and the worker loop -/

theorem spider_db (now : Int) (w : World) (url : String) : (spider now w url).db = w.db := by
  simp [spider, getNewURLs]

theorem spider_worker (now : Int) (w : World) (url : String) :
    (spider now w url).rdb.worker = w.rdb.worker := by
  simp [spider, getNewURLs, addURL, addVisitedURL]

theorem spider_tasks (now : Int) (w : World) (url : String) :
    (spider now w url).rdb.tasks = w.rdb.tasks := by
  simp [spider, getNewURLs, addURL, addVisitedURL]

theorem spider_log (now : Int) (w : World) (url : String) :
    (spider now w url).log = w.log ++ ["正在爬取：" ++ url] := by
  simp [spider, getNewURLs]

theorem workerIteration_worker (now : Int) (w : World) :
    (workerIteration now w).rdb.worker = (RPopLPush w.rdb.worker).2 := by
  unfold workerIteration
  rcases h : RPopLPush w.rdb.worker with ⟨o, l⟩
  cases o with
  | none =>
    have := (RPopLPush_none _ _ h)
    simp [this.1, this.2]
  | some v =>
    simp only
    split_ifs
    · rfl
    · rw [spider_worker]

theorem workerIteration_db (now : Int) (w : World) : (workerIteration now w).db = w.db := by
  unfold workerIteration
  rcases RPopLPush w.rdb.worker with ⟨o, l⟩
  cases o with
  | none => rfl
  | some v =>
    simp only
    split_ifs
    · rfl
    · rw [spider_db]

theorem workerLoop_cons (now : Int) (nows : List Int) (w : World) :
    workerLoop (now :: nows) w = workerLoop nows (workerIteration now w) := rfl

theorem workerLoop_worker (nows : List Int) (w : World) :
    (workerLoop nows w).rdb.worker = rotateN nows.length w.rdb.worker := by
  induction nows generalizing w with
  | nil => rfl
  | cons now nows ih =>
    rw [workerLoop_cons, ih, workerIteration_worker, List.length_cons, rotateN_succ]

theorem workerLoop_db (nows : List Int) (w : World) : (workerLoop nows w).db = w.db := by
  induction nows generalizing w with
  | nil => rfl
  | cons now nows ih => rw [workerLoop_cons, ih, workerIteration_db]

theorem FirstTask_notFound (db : DB) (out : Task) (id : Nat)
    (h : (db.FirstTask out id).2 = some StoreError.RecordNotFound) :
    (db.FirstTask out id).1 = out := by
  unfold DB.FirstTask at h ⊢
  cases hf : db.tasks.find? (fun r => r.ID == id && r.DeletedAt.isNone) with
  | none => rfl
  | some r => simp [hf] at h

theorem workerIteration_skip (now : Int) (w : World) (taskID : Nat) (rest : List Nat)
    (hclaim : RPopLPush w.rdb.worker = (some taskID, rest))
    (hstate : (w.db.FirstTask default taskID).1.Status ≠ Running) :
    workerIteration now w = { w with rdb := { w.rdb with worker := rest } } := by
  unfold workerIteration
  rw [hclaim]
  simp only
  rw [if_pos hstate]

theorem workerIteration_run (now : Int) (w : World) (taskID : Nat) (rest : List Nat)
    (hclaim : RPopLPush w.rdb.worker = (some taskID, rest))
    (hstate : (w.db.FirstTask default taskID).1.Status = Running) :
    workerIteration now w =
      spider now { w with rdb := { w.rdb with worker := rest } }
        (w.db.FirstTask default taskID).1.Url := by
  unfold workerIteration
  rw [hclaim]
  simp only
  rw [if_neg (not_not.mpr hstate)]

/-! ## The store -/

theorem le_foldr_max (ids : List Nat) (x : Nat) (hx : x ∈ ids) : x ≤ ids.foldr max 0 := by
  induction ids with
  | nil => simp at hx
  | cons a rest ih =>
    simp only [List.foldr_cons]
    rcases List.mem_cons.mp hx with rfl | h
    · exact Nat.le_max_left _ _
    · exact Nat.le_trans (ih h) (Nat.le_max_right _ _)

theorem nextID_fresh (ids : List Nat) (x : Nat) (hx : x ∈ ids) : x < nextID ids :=
  Nat.lt_succ_of_le (le_foldr_max ids x hx)

theorem storedKey_zero (ids : List Nat) : storedKey ids 0 = nextID ids := by
  simp [storedKey]

theorem storedKey_of_le (ids : List Nat) (id : Nat) (h0 : id ≠ 0) (hle : id ≤ maxKey) :
    storedKey ids id = id := by
  simp [storedKey, h0, Nat.min_eq_left hle]

theorem find?_append_new (l : List Task) (row : Task)
    (hfresh : ∀ r ∈ l, r.ID ≠ row.ID) (hvis : row.DeletedAt = none) :
    (l ++ [row]).find? (fun r => r.ID == row.ID && r.DeletedAt.isNone) = some row := by
  induction l with
  | nil => simp [hvis]
  | cons a rest ih =>
    have ha : a.ID ≠ row.ID := hfresh a (List.mem_cons_self _ _)
    have hrest := ih (fun r hr => hfresh r (List.mem_cons_of_mem _ hr))
    simp [List.find?_cons, ha, hrest]

theorem find?_map_overwrite (l : List Task) (task : Task) (hvis : task.DeletedAt = none)
    (hex : ∃ r ∈ l, r.ID = task.ID ∧ r.DeletedAt = none) :
    (l.map (fun r => if r.ID = task.ID ∧ r.DeletedAt = none then task else r)).find?
      (fun r => r.ID == task.ID && r.DeletedAt.isNone) = some task := by
  induction l with
  | nil => simp at hex
  | cons a rest ih =>
    by_cases ha : a.ID = task.ID ∧ a.DeletedAt = none
    · simp [List.find?_cons, ha, hvis]
    · have hex2 : ∃ r ∈ rest, r.ID = task.ID ∧ r.DeletedAt = none := by
        obtain ⟨r, hr, hid⟩ := hex
        rcases List.mem_cons.mp hr with rfl | h
        · exact absurd hid ha
        · exact ⟨r, h, hid⟩
      have hpred : (a.ID == task.ID && a.DeletedAt.isNone) = false := by
        by_cases hid : a.ID = task.ID
        · have hdel : a.DeletedAt ≠ none := fun hd => ha ⟨hid, hd⟩
          cases hda : a.DeletedAt with
          | none => exact absurd hda hdel
          | some d => simp
        · simp [hid]
      rw [List.map_cons, if_neg ha, List.find?_cons, hpred]
      exact ih hex2

theorem CreateTask_eq (db : DB) (task : Task)
    (hfit : fits task.Name ∧ fits task.Url ∧ fits task.Status) (hst : task.Status ≠ "")
    (hkey : ¬ (maxKey < storedKey (db.tasks.map Task.ID) task.ID ∨
      db.tasks.any (fun r => r.ID == storedKey (db.tasks.map Task.ID) task.ID))) :
    db.CreateTask task =
      ({ db with tasks := db.tasks ++
          [{ task with ID := storedKey (db.tasks.map Task.ID) task.ID }] },
        if task.ID = 0 then { task with ID := storedKey (db.tasks.map Task.ID) task.ID }
        else task, none) := by
  unfold DB.CreateTask
  rw [if_neg (not_not.mpr hfit)]
  simp only []
  rw [if_neg hkey]
  simp [hst]

theorem CreateTask_cases (db db2 : DB) (task saved : Task)
    (h : db.CreateTask task = (db2, saved, none)) :
    (fits task.Name ∧ fits task.Url ∧ fits task.Status) ∧
    ¬ (maxKey < storedKey (db.tasks.map Task.ID) task.ID ∨
      db.tasks.any (fun r => r.ID == storedKey (db.tasks.map Task.ID) task.ID)) := by
  unfold DB.CreateTask at h
  by_cases hfit : fits task.Name ∧ fits task.Url ∧ fits task.Status
  · refine ⟨hfit, ?_⟩
    intro hkey
    rw [if_neg (not_not.mpr hfit)] at h
    simp only [] at h
    rw [if_pos hkey] at h
    simp at h
  · rw [if_pos hfit] at h
    simp at h

theorem CreateTask_load (db db2 : DB) (task saved out : Task)
    (hle : task.ID ≤ maxKey) (hvis : task.DeletedAt = none) (hst : task.Status ≠ "")
    (h : db.CreateTask task = (db2, saved, none)) :
    db2.FirstTask out saved.ID = (saved, none) ∧
    db2.tasks = db.tasks ++ [saved] ∧
    saved = { task with ID := saved.ID } ∧ (task.ID ≠ 0 → saved.ID = task.ID) := by
  obtain ⟨hfit, hkey⟩ := CreateTask_cases db db2 task saved h
  rw [CreateTask_eq db task hfit hst hkey] at h
  simp only [Prod.mk.injEq, and_true] at h
  obtain ⟨hdb, hsaved⟩ := h
  have hfresh : ∀ r ∈ db.tasks, r.ID ≠ storedKey (db.tasks.map Task.ID) task.ID := by
    intro r hr heq
    exact hkey (Or.inr (by simpa using ⟨r, hr, heq⟩))
  by_cases h0 : task.ID = 0
  · rw [if_pos h0] at hsaved
    subst hdb
    subst hsaved
    refine ⟨?_, rfl, rfl, fun hne => absurd h0 hne⟩
    have hf := find?_append_new db.tasks
      { task with ID := storedKey (db.tasks.map Task.ID) task.ID } hfresh hvis
    unfold DB.FirstTask
    dsimp only at hf ⊢
    rw [hf]
  · rw [if_neg h0] at hsaved
    have hk : storedKey (db.tasks.map Task.ID) task.ID = task.ID := storedKey_of_le _ _ h0 hle
    rw [hk] at hdb hfresh
    subst hdb
    subst hsaved
    refine ⟨?_, rfl, rfl, fun _ => rfl⟩
    unfold DB.FirstTask
    simp only
    rw [find?_append_new _ _ hfresh hvis]

theorem SaveTask_load (db db2 : DB) (task saved out : Task)
    (hle : task.ID ≤ maxKey) (hvis : task.DeletedAt = none) (hst : task.Status ≠ "")
    (h : db.SaveTask task = (db2, saved, none)) :
    db2.FirstTask out saved.ID = (saved, none) ∧
    saved = { task with ID := saved.ID } ∧ (task.ID ≠ 0 → saved.ID = task.ID) := by
  unfold DB.SaveTask at h
  by_cases h0 : task.ID = 0
  · rw [if_neg (not_not.mpr h0)] at h
    have := CreateTask_load db db2 task saved out hle hvis hst h
    exact ⟨this.1, this.2.2.1, this.2.2.2⟩
  · rw [if_pos h0] at h
    by_cases hfit : fits task.Name ∧ fits task.Url ∧ fits task.Status
    · rw [if_neg (not_not.mpr hfit)] at h
      by_cases hex : db.tasks.any (fun r => r.ID == task.ID && r.DeletedAt.isNone) = true
      · rw [if_pos hex] at h
        simp only [Prod.mk.injEq, and_true] at h
        obtain ⟨hdb, hsaved⟩ := h
        subst hdb
        subst hsaved
        refine ⟨?_, rfl, fun _ => rfl⟩
        unfold DB.FirstTask
        simp only
        rw [find?_map_overwrite _ _ hvis (by simpa using hex)]
      · rw [if_neg hex] at h
        have := CreateTask_load db db2 task saved out hle hvis hst h
        exact ⟨this.1, this.2.2.1, this.2.2.2⟩
    · rw [if_pos hfit] at h
      simp at h

theorem SaveTask_ok (db : DB) (task : Task)
    (hfit : fits task.Name ∧ fits task.Url ∧ fits task.Status) (hst : task.Status ≠ "")
    (hle : task.ID ≤ maxKey)
    (hzero : task.ID = 0 → nextID (db.tasks.map Task.ID) ≤ maxKey)
    (hrow : task.ID ≠ 0 → (∃ r ∈ db.tasks, r.ID = task.ID ∧ r.DeletedAt = none) ∨
      ∀ r ∈ db.tasks, r.ID ≠ task.ID) :
    (db.SaveTask task).2.2 = none := by
  have hcreate : (task.ID = 0 ∨ ∀ r ∈ db.tasks, r.ID ≠ task.ID) →
      (db.CreateTask task).2.2 = none := by
    intro hcase
    rw [CreateTask_eq db task hfit hst]
    by_cases h0 : task.ID = 0
    · rw [h0, storedKey_zero]
      rintro (hlt | hany)
      · exact absurd (hzero h0) (Nat.not_le_of_lt hlt)
      · simp only [List.any_eq_true, beq_iff_eq] at hany
        obtain ⟨r, hr, heq⟩ := hany
        exact absurd heq (Nat.ne_of_lt (nextID_fresh _ _ (List.mem_map_of_mem Task.ID hr)))
    · rw [storedKey_of_le _ _ h0 hle]
      have hno : ∀ r ∈ db.tasks, r.ID ≠ task.ID := hcase.resolve_left h0
      rintro (hlt | hany)
      · exact absurd hle (Nat.not_le_of_lt hlt)
      · simp only [List.any_eq_true, beq_iff_eq] at hany
        obtain ⟨r, hr, heq⟩ := hany
        exact hno r hr heq
  unfold DB.SaveTask
  by_cases h0 : task.ID = 0
  · rw [if_neg (not_not.mpr h0)]
    exact hcreate (Or.inl h0)
  · rw [if_pos h0, if_neg (not_not.mpr hfit)]
    by_cases hex : db.tasks.any (fun r => r.ID == task.ID && r.DeletedAt.isNone) = true
    · rw [if_pos hex]
    · rw [if_neg hex]
      rcases hrow h0 with hvis | hno
      · exact absurd (by simpa using hvis) hex
      · exact hcreate (Or.inr hno)

theorem CreateSeed_duplicate (db : DB) (url : String) (hfit : fits url = true)
    (hdup : ∃ r ∈ db.seeds, r.Url = url) :
    db.CreateSeed ⟨0, none, url⟩ = (db, ⟨0, none, url⟩, some StoreError.ConstraintViolation) := by
  unfold DB.CreateSeed
  rw [if_neg (not_not.mpr hfit), if_pos (by simpa using hdup)]

theorem CreateSeed_new (db : DB) (url : String) (hfit : fits url = true)
    (hnew : ∀ r ∈ db.seeds, r.Url ≠ url) (hkey : nextID (db.seeds.map Seed.ID) ≤ maxKey) :
    db.CreateSeed ⟨0, none, url⟩ =
      ({ db with seeds := db.seeds ++ [⟨nextID (db.seeds.map Seed.ID), none, url⟩] },
        ⟨nextID (db.seeds.map Seed.ID), none, url⟩, none) := by
  unfold DB.CreateSeed
  rw [if_neg (not_not.mpr hfit), if_neg (by simpa using hnew)]
  simp only [storedKey_zero]
  rw [if_neg]
  · simp
  · rintro (hlt | hany)
    · exact absurd hkey (Nat.not_le_of_lt hlt)
    · simp only [List.any_eq_true, beq_iff_eq] at hany
      obtain ⟨r, hr, heq⟩ := hany
      exact absurd heq (Nat.ne_of_lt (nextID_fresh _ _ (List.mem_map_of_mem Seed.ID hr)))

theorem CreateTask_zero (db : DB) (name url : String) (hname : fits name = true)
    (hurl : fits url = true) (hkey : nextID (db.tasks.map Task.ID) ≤ maxKey) :
    db.CreateTask ⟨0, none, name, url, Stopped⟩ =
      ({ db with tasks := db.tasks ++
          [⟨nextID (db.tasks.map Task.ID), none, name, url, Stopped⟩] },
        ⟨nextID (db.tasks.map Task.ID), none, name, url, Stopped⟩, none) := by
  have hs : fits Stopped = true := by decide
  have hne : Stopped ≠ "" := by decide
  rw [CreateTask_eq db _ ⟨hname, hurl, hs⟩ hne]
  · simp [storedKey_zero]
  · rw [storedKey_zero]
    rintro (hlt | hany)
    · exact absurd hkey (Nat.not_le_of_lt hlt)
    · simp only [List.any_eq_true, beq_iff_eq] at hany
      obtain ⟨r, hr, heq⟩ := hany
      exact absurd heq (Nat.ne_of_lt (nextID_fresh _ _ (List.mem_map_of_mem Task.ID hr)))

/-! ## Sets and sorted sets -/

theorem mem_SAdd (s : List String) (m v : String) : v ∈ SAdd s m ↔ v = m ∨ v ∈ s := by
  unfold SAdd
  split_ifs with h
  · constructor
    · exact Or.inr
    · rintro (rfl | hv)
      · exact h
      · exact hv
  · simp [or_comm]

theorem SAdd_of_mem (s : List String) (m : String) (h : m ∈ s) : SAdd s m = s := by
  simp [SAdd, h]

theorem SAdd_SAdd (s : List String) (m : String) : SAdd (SAdd s m) m = SAdd s m :=
  SAdd_of_mem _ _ ((mem_SAdd s m m).mpr (Or.inl rfl))

theorem mem_foldl_SAdd (l s : List String) (v : String) :
    v ∈ l.foldl SAdd s ↔ v ∈ l ∨ v ∈ s := by
  induction l generalizing s with
  | nil => simp
  | cons a rest ih =>
    rw [List.foldl_cons, ih, mem_SAdd, List.mem_cons]
    tauto

theorem foldl_SAdd_of_subset (l s : List String) (h : ∀ v ∈ l, v ∈ s) :
    l.foldl SAdd s = s := by
  induction l generalizing s with
  | nil => rfl
  | cons a rest ih =>
    rw [List.foldl_cons, SAdd_of_mem s a (h a (List.mem_cons_self _ _))]
    exact ih s (fun v hv => h v (List.mem_cons_of_mem _ hv))

theorem spider_urls (now : Int) (w : World) (url : String) :
    (spider now w url).rdb.urls = (getNewURLs url).1.foldl SAdd w.rdb.urls := by
  simp [spider, getNewURLs, addURL, addVisitedURL]

theorem zinsert_perm (z : Z) (l : List Z) : List.Perm (zinsert z l) (z :: l) := by
  induction l with
  | nil => exact List.Perm.refl _
  | cons y ys ih =>
    unfold zinsert
    split_ifs
    · exact List.Perm.refl _
    · exact (List.Perm.cons y ih).trans (List.Perm.swap z y ys)

theorem mem_ZAdd (s : List Z) (z y : Z) :
    y ∈ ZAdd s z ↔ y = z ∨ (y ∈ s ∧ y.Member ≠ z.Member) := by
  unfold ZAdd
  rw [(zinsert_perm z _).mem_iff]
  simp

theorem ZAdd_filter_member (s : List Z) (z : Z) :
    (ZAdd s z).filter (fun y => y.Member == z.Member) = [z] := by
  have hperm := (zinsert_perm z (s.filter (fun y => y.Member != z.Member))).filter
    (fun y => y.Member == z.Member)
  have hnil : (s.filter (fun y => y.Member != z.Member)).filter
      (fun y => y.Member == z.Member) = [] := by
    rw [List.filter_eq_nil_iff]
    intro y hy
    have := (List.mem_filter.mp hy).2
    simpa using this
  rw [List.filter_cons_of_pos (by simp), hnil] at hperm
  exact List.perm_singleton.mp hperm

/-! ## The trigger -/

theorem trigger_empty (json : JSON) (w : World) (h : w.rdb.tasks = []) :
    trigger json w = { w with log := w.log ++ [redisNil] } := by
  unfold trigger
  rw [h, RPop_nil]

theorem trigger_error (json : JSON) (w : World) (rest : List String) (payload e : String)
    (h : w.rdb.tasks = rest ++ [payload]) (herr : json.Unmarshal payload = Except.error e) :
    trigger json w =
      { w with rdb := { w.rdb with tasks := rest }, log := w.log ++ [e] } := by
  unfold trigger
  rw [h, RPop_append_singleton]
  simp only [herr]

theorem trigger_ok (json : JSON) (w : World) (rest : List String) (payload : String)
    (t : Task) (h : w.rdb.tasks = rest ++ [payload])
    (hok : json.Unmarshal payload = Except.ok t) :
    trigger json w =
      { w with rdb := { w.rdb with tasks := rest, worker := LPush w.rdb.worker t.ID } } := by
  unfold trigger
  rw [h, RPop_append_singleton]
  simp only [hok]

theorem mem_ScheduleTask_jobs (json : JSON) (w : World) (name url : String) (priority : Int)
    (interval : Nat) (job : Job)
    (h : job ∈ (ScheduleTask json w [] name url priority interval).2) :
    job.Do = trigger json := by
  unfold ScheduleTask at h
  simp only [List.nil_append, List.mem_singleton] at h
  rw [h]

theorem AddTaskToQueue_tasks (json : JSON) (rdb : Redis) (t : Task) :
    (AddTaskToQueue json rdb t).1 =
      { rdb with tasks := ((json.Marshal t).toOption).toList ++ rdb.tasks } := by
  unfold AddTaskToQueue
  cases json.Marshal t <;> simp [Except.toOption, LPush]

theorem enqueueAll_eq (json : JSON) (rdb : Redis) (ts : List Task) :
    enqueueAll json rdb ts =
      { rdb with tasks :=
          (ts.filterMap (fun t => (json.Marshal t).toOption)).reverse ++ rdb.tasks } := by
  induction ts generalizing rdb with
  | nil => simp [enqueueAll]
  | cons t rest ih =>
    have hstep : enqueueAll json rdb (t :: rest)
        = enqueueAll json (AddTaskToQueue json rdb t).1 rest := rfl
    rw [hstep, ih, AddTaskToQueue_tasks, List.filterMap_cons]
    cases (json.Marshal t).toOption <;> simp

theorem payloads_forall₂ (json : JSON) (ts : List Task)
    (hjson : ∀ t ∈ ts, ∃ s t2, json.Marshal t = Except.ok s ∧
      json.Unmarshal s = Except.ok t2 ∧ t2.ID = t.ID) :
    List.Forall₂ (fun p id => ∃ t2, json.Unmarshal p = Except.ok t2 ∧ t2.ID = id)
      (ts.filterMap (fun t => (json.Marshal t).toOption)) (ts.map Task.ID) := by
  induction ts with
  | nil => simp
  | cons t rest ih =>
    obtain ⟨s, t2, hm, hu, hid⟩ := hjson t (List.mem_cons_self _ _)
    have hrest := ih (fun x hx => hjson x (List.mem_cons_of_mem _ hx))
    simp only [List.filterMap_cons, hm, Except.toOption, List.map_cons]
    exact List.Forall₂.cons ⟨t2, hu, hid⟩ hrest

theorem trigger_iterate (json : JSON) (ps : List String) (ids : List Nat)
    (h : List.Forall₂ (fun p id => ∃ t2, json.Unmarshal p = Except.ok t2 ∧ t2.ID = id) ps ids)
    (w : World) (rest : List String) (hq : w.rdb.tasks = rest ++ ps.reverse) :
    (trigger json)^[ps.length] w =
      { w with rdb := { w.rdb with tasks := rest, worker := ids.reverse ++ w.rdb.worker } } := by
  induction h generalizing w with
  | nil =>
    simp only [List.reverse_nil, List.append_nil] at hq
    simp [← hq]
  | @cons p id ps ids hp _ ih =>
    obtain ⟨t2, hu, hid⟩ := hp
    have hq2 : w.rdb.tasks = (rest ++ ps.reverse) ++ [p] := by
      rw [hq, List.reverse_cons, List.append_assoc]
    rw [List.length_cons, Function.iterate_succ_apply,
      trigger_ok json w (rest ++ ps.reverse) p t2 hq2 hu, ih _ rfl]
    simp [LPush, hid]

theorem trigger_promotes (json : JSON) (w : World) (ts : List Task) (n : Nat)
    (hempty : w.rdb.tasks = []) (hn : n ≤ ts.length)
    (hjson : ∀ t ∈ ts, ∃ s t2, json.Marshal t = Except.ok s ∧
      json.Unmarshal s = Except.ok t2 ∧ t2.ID = t.ID) :
    (trigger json)^[n] { w with rdb := enqueueAll json w.rdb ts } =
      { w with rdb := { w.rdb with
          tasks := ((ts.drop n).filterMap (fun t => (json.Marshal t).toOption)).reverse,
          worker := ((ts.take n).map Task.ID).reverse ++ w.rdb.worker } } := by
  have hfa := payloads_forall₂ json (ts.take n)
    (fun t ht => hjson t (List.mem_of_mem_take ht))
  have hlen : ((ts.take n).filterMap (fun t => (json.Marshal t).toOption)).length = n := by
    rw [hfa.length_eq, List.length_map, List.length_take, Nat.min_eq_left hn]
  have hq : (enqueueAll json w.rdb ts).tasks =
      ((ts.drop n).filterMap (fun t => (json.Marshal t).toOption)).reverse ++
        ((ts.take n).filterMap (fun t => (json.Marshal t).toOption)).reverse := by
    rw [enqueueAll_eq, hempty, List.append_nil, ← List.reverse_append, ← List.filterMap_append,
      List.take_append_drop]
  have hit := trigger_iterate json _ _ hfa { w with rdb := enqueueAll json w.rdb ts } _ hq
  rw [hlen] at hit
  rw [hit, enqueueAll_eq]

/-! ## The claims -/

/-- C1: when the worker loop has claimed an id and the task loaded for it is
missing, Paused or Stopped, the iteration does nothing but rotate the worker
queue: the crawl step is not run (it would write its log line), and the dedup
set, the visited set, the ready queue and the task store are as before. -/
theorem worker_skips_task_not_running (now : Int) (w : World) (taskID : Nat)
    (rest : List Nat)
    (hclaim : RPopLPush w.rdb.worker = (some taskID, rest))
    (hstate : (w.db.FirstTask default taskID).2 = some StoreError.RecordNotFound ∨
      (w.db.FirstTask default taskID).1.Status = Paused ∨
      (w.db.FirstTask default taskID).1.Status = Stopped) :
    workerIteration now w = { w with rdb := { w.rdb with worker := rest } } ∧
    (workerIteration now w).log = w.log ∧
    (∀ url, workerIteration now w ≠
      spider now { w with rdb := { w.rdb with worker := rest } } url) ∧
    (workerIteration now w).rdb.urls = w.rdb.urls ∧
    (workerIteration now w).rdb.visited = w.rdb.visited ∧
    (workerIteration now w).rdb.tasks = w.rdb.tasks ∧
    (workerIteration now w).db = w.db := by
  have hne : (w.db.FirstTask default taskID).1.Status ≠ Running := by
    rcases hstate with h | h | h
    · rw [FirstTask_notFound _ _ _ h]; decide
    · rw [h]; decide
    · rw [h]; decide
  have hskip := workerIteration_skip now w taskID rest hclaim hne
  refine ⟨hskip, by rw [hskip], ?_, by rw [hskip], by rw [hskip], by rw [hskip], by rw [hskip]⟩
  intro url heq
  have hlog := congrArg World.log heq
  rw [hskip, spider_log] at hlog
  simp at hlog

/-- Instance of C1: the queued task 7 has been paused since it was queued. -/
theorem worker_skips_task_not_running_witness :
    workerIteration 100
        ⟨⟨[], [], [⟨7, none, "J", "http://x", Paused⟩]⟩, ⟨[], [], [], [3, 7]⟩, []⟩
      = ⟨⟨[], [], [⟨7, none, "J", "http://x", Paused⟩]⟩, ⟨[], [], [], [7, 3]⟩, []⟩ :=
  (worker_skips_task_not_running 100
    ⟨⟨[], [], [⟨7, none, "J", "http://x", Paused⟩]⟩, ⟨[], [], [], [3, 7]⟩, []⟩ 7 [7, 3]
    (by decide) (by decide)).1

/-- C3: rotate-claims keep the multiset of ids in the worker queue, for the
bare rotation and for the worker loop run any number of passes from any state,
whatever each pass loads and whether or not it crawls. -/
theorem rotate_claim_preserves_multiset (k : Nat) (worker : List Nat) (nows : List Int)
    (w : World) :
    (↑(rotateN k worker) : Multiset Nat) = ↑worker ∧
    (workerLoop nows w).rdb.worker = rotateN nows.length w.rdb.worker ∧
    (↑(workerLoop nows w).rdb.worker : Multiset Nat) = ↑w.rdb.worker := by
  refine ⟨Multiset.coe_eq_coe.mpr (rotateN_perm k worker), workerLoop_worker nows w, ?_⟩
  rw [workerLoop_worker]
  exact Multiset.coe_eq_coe.mpr (rotateN_perm _ _)

/-- C8: a worker queue filled by pushing `ids` in order hands them out round
robin.  The claim made after `k` earlier ones returns `ids[k % n]` (so the
first returns the oldest id), the queue after `k` claims is the queue obtained
by pushing `ids` rotated by `k` (the claimed id sits where the newest push
would), every `n` consecutive claims return the ids in rotated order, each
position once, and `n` more claims restore the queue.  The worker loop performs
exactly these claims. -/
theorem worker_queue_round_robin (ids : List Nat) (hne : ids ≠ []) :
    (∀ k, (RPopLPush (rotateN k (ids.foldl LPush []))).1 = ids[k % ids.length]? ∧
      k % ids.length < ids.length) ∧
    (∀ k, rotateN k (ids.foldl LPush []) = (ids.rotate k).foldl LPush []) ∧
    (∀ j, (List.range ids.length).map
        (fun i => (RPopLPush (rotateN (j + i) (ids.foldl LPush []))).1)
        = (ids.rotate j).map some ∧ (ids.rotate j).Perm ids) ∧
    (∀ k, rotateN (k + ids.length) (ids.foldl LPush []) = rotateN k (ids.foldl LPush [])) ∧
    rotateN ids.length (ids.foldl LPush []) = ids.foldl LPush [] ∧
    (∀ (nows : List Int) (w : World), w.rdb.worker = ids.foldl LPush [] →
      (workerLoop nows w).rdb.worker = rotateN nows.length (ids.foldl LPush [])) := by
  have hpos : 0 < ids.length := List.length_pos.mpr hne
  have hclaim : ∀ k, (RPopLPush (rotateN k (ids.foldl LPush []))).1
      = ids[k % ids.length]? := by
    intro k
    rw [foldl_LPush_nil, rotateN_reverse, RPopLPush_reverse_fst, head?_rotate ids k hne]
  have hperiod : ∀ k, rotateN (k + ids.length) (ids.foldl LPush [])
      = rotateN k (ids.foldl LPush []) := by
    intro k
    rw [foldl_LPush_nil, rotateN_reverse, rotateN_reverse, Nat.add_comm,
      ← List.rotate_rotate, List.rotate_length]
  refine ⟨fun k => ⟨hclaim k, Nat.mod_lt _ hpos⟩, ?_, ?_, hperiod, ?_, ?_⟩
  · intro k
    rw [foldl_LPush_nil, foldl_LPush_nil, rotateN_reverse]
  · intro j
    refine ⟨?_, List.rotate_perm ids j⟩
    apply List.ext_getElem?
    intro i
    by_cases hi : i < ids.length
    · rw [List.getElem?_map, List.getElem?_map, List.getElem?_range hi,
        List.getElem?_rotate hi]
      simp only [Option.map_some']
      rw [hclaim, Nat.add_comm j i]
      have hlt : (i + j) % ids.length < ids.length := Nat.mod_lt _ hpos
      rw [List.getElem?_eq_getElem hlt]
      rfl
    · rw [List.getElem?_eq_none (by simpa using hi), List.getElem?_eq_none (by simpa using hi)]
  · have := hperiod 0
    simpa [rotateN] using this
  · intro nows w hw
    rw [workerLoop_worker, hw]

/-- Instance of C8 with three ids: the fourth claim returns the first id again. -/
theorem worker_queue_round_robin_witness :
    (RPopLPush (rotateN 3 ([5, 8, 2].foldl LPush []))).1 = [5, 8, 2][3 % 3]? ∧
      rotateN 3 ([5, 8, 2].foldl LPush []) = [5, 8, 2].foldl LPush [] :=
  ⟨((worker_queue_round_robin [5, 8, 2] (by decide)).1 3).1,
    (worker_queue_round_robin [5, 8, 2] (by decide)).2.2.2.2.1⟩

/-- C2, as the code behaves: for a task whose key lies in the range of the key
column and whose soft-delete mark is unset, after a `StartTask` that returns
no error, loading the task by the id it then carries (its own id unless that
was zero) finds a row whose status is Running; likewise Paused after
`PauseTask` and Stopped after `StopTask`.  The call does return no error when
name and URL fit their columns and the key is zero with a free next key, or is
the key of a row not marked deleted, or is the key of no row. -/
theorem control_then_load :
    (∀ (db : DB) (task : Task), task.ID ≤ maxKey → task.DeletedAt = none →
      (∀ (db2 : DB) (saved : Task), StartTask db task = (db2, saved, none) →
        (db2.FirstTask default saved.ID).2 = none ∧
        (db2.FirstTask default saved.ID).1.Status = Running ∧
        (task.ID ≠ 0 → saved.ID = task.ID)) ∧
      (task.Name.length ≤ 255 → task.Url.length ≤ 255 →
        (task.ID = 0 → nextID (db.tasks.map Task.ID) ≤ maxKey) →
        (task.ID ≠ 0 → (∃ r ∈ db.tasks, r.ID = task.ID ∧ r.DeletedAt = none) ∨
          ∀ r ∈ db.tasks, r.ID ≠ task.ID) →
        (StartTask db task).2.2 = none)) ∧
    (∀ (db : DB) (task : Task), task.ID ≤ maxKey → task.DeletedAt = none →
      (∀ (db2 : DB) (saved : Task), PauseTask db task = (db2, saved, none) →
        (db2.FirstTask default saved.ID).2 = none ∧
        (db2.FirstTask default saved.ID).1.Status = Paused ∧
        (task.ID ≠ 0 → saved.ID = task.ID)) ∧
      (task.Name.length ≤ 255 → task.Url.length ≤ 255 →
        (task.ID = 0 → nextID (db.tasks.map Task.ID) ≤ maxKey) →
        (task.ID ≠ 0 → (∃ r ∈ db.tasks, r.ID = task.ID ∧ r.DeletedAt = none) ∨
          ∀ r ∈ db.tasks, r.ID ≠ task.ID) →
        (PauseTask db task).2.2 = none)) ∧
    (∀ (db : DB) (task : Task), task.ID ≤ maxKey → task.DeletedAt = none →
      (∀ (db2 : DB) (saved : Task), StopTask db task = (db2, saved, none) →
        (db2.FirstTask default saved.ID).2 = none ∧
        (db2.FirstTask default saved.ID).1.Status = Stopped ∧
        (task.ID ≠ 0 → saved.ID = task.ID)) ∧
      (task.Name.length ≤ 255 → task.Url.length ≤ 255 →
        (task.ID = 0 → nextID (db.tasks.map Task.ID) ≤ maxKey) →
        (task.ID ≠ 0 → (∃ r ∈ db.tasks, r.ID = task.ID ∧ r.DeletedAt = none) ∨
          ∀ r ∈ db.tasks, r.ID ≠ task.ID) →
        (StopTask db task).2.2 = none)) := by
  have key : ∀ (status : TaskStatus), status ≠ "" → fits status = true →
      ∀ (db : DB) (task : Task), task.ID ≤ maxKey → task.DeletedAt = none →
      (∀ (db2 : DB) (saved : Task),
        db.SaveTask { task with Status := status } = (db2, saved, none) →
        (db2.FirstTask default saved.ID).2 = none ∧
        (db2.FirstTask default saved.ID).1.Status = status ∧
        (task.ID ≠ 0 → saved.ID = task.ID)) ∧
      (task.Name.length ≤ 255 → task.Url.length ≤ 255 →
        (task.ID = 0 → nextID (db.tasks.map Task.ID) ≤ maxKey) →
        (task.ID ≠ 0 → (∃ r ∈ db.tasks, r.ID = task.ID ∧ r.DeletedAt = none) ∨
          ∀ r ∈ db.tasks, r.ID ≠ task.ID) →
        (db.SaveTask { task with Status := status }).2.2 = none) := by
    intro status hne hfs db task hle hvis
    constructor
    · intro db2 saved h
      have hl := SaveTask_load db db2 { task with Status := status } saved default hle hvis hne h
      rw [hl.1]
      refine ⟨rfl, ?_, hl.2.2⟩
      rw [hl.2.1]
    · intro hname hurl hzero hrow
      exact SaveTask_ok db { task with Status := status }
        ⟨by simpa [fits] using hname, by simpa [fits] using hurl, hfs⟩ hne hle hzero hrow
  exact ⟨key Running (by decide) (by decide), key Paused (by decide) (by decide),
    key Stopped (by decide) (by decide)⟩

/-- Instance of C2: a stopped task 4 is started, a running one paused, a paused
one stopped; each call returns no error. -/
theorem control_then_load_witness :
    ((⟨[], [], [⟨4, none, "J", "http://x", Running⟩]⟩ : DB).FirstTask default 4).1.Status
      = Running ∧
    (StartTask ⟨[], [], [⟨4, none, "J", "http://x", Stopped⟩]⟩
      ⟨4, none, "J", "http://x", Stopped⟩).2.2 = none ∧
    ((⟨[], [], [⟨4, none, "J", "http://x", Paused⟩]⟩ : DB).FirstTask default 4).1.Status
      = Paused ∧
    ((⟨[], [], [⟨4, none, "J", "http://x", Stopped⟩]⟩ : DB).FirstTask default 4).1.Status
      = Stopped :=
  ⟨((control_then_load.1 ⟨[], [], [⟨4, none, "J", "http://x", Stopped⟩]⟩
      ⟨4, none, "J", "http://x", Stopped⟩ (by decide) rfl).1
      ⟨[], [], [⟨4, none, "J", "http://x", Running⟩]⟩
      ⟨4, none, "J", "http://x", Running⟩ (by decide)).2.1,
   (control_then_load.1 ⟨[], [], [⟨4, none, "J", "http://x", Stopped⟩]⟩
      ⟨4, none, "J", "http://x", Stopped⟩ (by decide) rfl).2
      (by decide) (by decide) (by decide) (by decide),
   ((control_then_load.2.1 ⟨[], [], [⟨4, none, "J", "http://x", Running⟩]⟩
      ⟨4, none, "J", "http://x", Running⟩ (by decide) rfl).1
      ⟨[], [], [⟨4, none, "J", "http://x", Paused⟩]⟩
      ⟨4, none, "J", "http://x", Paused⟩ (by decide)).2.1,
   ((control_then_load.2.2 ⟨[], [], [⟨4, none, "J", "http://x", Paused⟩]⟩
      ⟨4, none, "J", "http://x", Paused⟩ (by decide) rfl).1
      ⟨[], [], [⟨4, none, "J", "http://x", Stopped⟩]⟩
      ⟨4, none, "J", "http://x", Stopped⟩ (by decide)).2.1⟩

/-- C2 as stated fails.  `StartTask` of a task with key 4294967296 on the empty
store returns no error, the task keeps that key, and loading it finds nothing:
the row went in under the largest key of the column.  `StartTask` of task 4
carrying a soft-delete mark returns no error and writes the mark, so loading 4
finds nothing either. -/
theorem control_then_load_counterexample :
    (StartTask ⟨[], [], []⟩ ⟨4294967296, none, "J", "http://x", Stopped⟩).2.2 = none ∧
    (StartTask ⟨[], [], []⟩ ⟨4294967296, none, "J", "http://x", Stopped⟩).2.1.ID
      = 4294967296 ∧
    ((StartTask ⟨[], [], []⟩ ⟨4294967296, none, "J", "http://x", Stopped⟩).1.FirstTask
      default 4294967296) = (default, some StoreError.RecordNotFound) ∧
    ((StartTask ⟨[], [], []⟩ ⟨4294967296, none, "J", "http://x", Stopped⟩).1.FirstTask
      default 4294967296).1.Status ≠ Running ∧
    (StartTask ⟨[], [], [⟨4, none, "J", "http://x", Stopped⟩]⟩
      ⟨4, some 9, "J", "http://x", Stopped⟩).2.2 = none ∧
    ((StartTask ⟨[], [], [⟨4, none, "J", "http://x", Stopped⟩]⟩
      ⟨4, some 9, "J", "http://x", Stopped⟩).1.FirstTask default 4)
      = (default, some StoreError.RecordNotFound) := by
  decide

/-- C4, as the code behaves: when the store already holds a seed with the URL,
`ScheduleTask` adds no seed row (the insert is rejected with
ConstraintViolation), but it has no result through which the rejection could
reach its caller, and, name and URL fitting their columns and the task table
having a free next key, it goes on to add one task row, with the given name,
the URL and status Stopped, and to register its trigger. -/
theorem schedule_duplicate_url (json : JSON) (w : World) (jobs : List Job)
    (name url : String) (priority : Int) (interval : Nat)
    (hdup : ∃ r ∈ w.db.seeds, r.Url = url)
    (hname : name.length ≤ 255) (hurl : url.length ≤ 255)
    (hkey : nextID (w.db.tasks.map Task.ID) ≤ maxKey) :
    (w.db.CreateSeed ⟨0, none, url⟩).2.2 = some StoreError.ConstraintViolation ∧
    (ScheduleTask json w jobs name url priority interval).1.db.seeds = w.db.seeds ∧
    (ScheduleTask json w jobs name url priority interval).1.db.tasks =
      w.db.tasks ++ [⟨nextID (w.db.tasks.map Task.ID), none, name, url, Stopped⟩] ∧
    (ScheduleTask json w jobs name url priority interval).1.db.urls = w.db.urls ∧
    (ScheduleTask json w jobs name url priority interval).2 =
      jobs ++ [{ interval := interval, Do := trigger json }] := by
  have hfn : fits name = true := by simpa [fits] using hname
  have hfu : fits url = true := by simpa [fits] using hurl
  unfold ScheduleTask
  rw [CreateSeed_duplicate w.db url hfu hdup]
  simp only [CreateTask_zero w.db name url hfn hfu hkey]
  exact ⟨trivial, trivial, trivial, trivial, trivial⟩

/-- Instance of C4: a second registration of the URL of an existing seed. -/
theorem schedule_duplicate_url_witness :
    (ScheduleTask sampleCodec
        ⟨⟨[], [⟨1, none, "http://x"⟩], [⟨1, none, "J", "http://x", Stopped⟩]⟩,
          ⟨[], [], [], []⟩, []⟩ [] "K" "http://x" 3 4).1.db.tasks =
      [⟨1, none, "J", "http://x", Stopped⟩, ⟨2, none, "K", "http://x", Stopped⟩] :=
  (schedule_duplicate_url sampleCodec
    ⟨⟨[], [⟨1, none, "http://x"⟩], [⟨1, none, "J", "http://x", Stopped⟩]⟩,
      ⟨[], [], [], []⟩, []⟩
    [] "K" "http://x" 3 4 (by decide) (by decide) (by decide) (by decide)).2.2.1

/-- C4 as stated fails: after `ScheduleTask("J", "http://x", 1, 2)` on the empty
store, a second `ScheduleTask("K", "http://x", 3, 4)` does add a further task
row. -/
theorem schedule_duplicate_url_counterexample :
    (∃ r ∈ (ScheduleTask sampleCodec emptyWorld [] "J" "http://x" 1 2).1.db.seeds,
      r.Url = "http://x") ∧
    (ScheduleTask sampleCodec emptyWorld [] "J" "http://x" 1 2).1.db.tasks
      = [⟨1, none, "J", "http://x", "stopped"⟩] ∧
    (ScheduleTask sampleCodec (ScheduleTask sampleCodec emptyWorld [] "J" "http://x" 1 2).1
        [] "K" "http://x" 3 4).1.db.seeds
      = (ScheduleTask sampleCodec emptyWorld [] "J" "http://x" 1 2).1.db.seeds ∧
    (ScheduleTask sampleCodec (ScheduleTask sampleCodec emptyWorld [] "J" "http://x" 1 2).1
        [] "K" "http://x" 3 4).1.db.tasks
      = [⟨1, none, "J", "http://x", "stopped"⟩, ⟨2, none, "K", "http://x", "stopped"⟩] ∧
    (ScheduleTask sampleCodec (ScheduleTask sampleCodec emptyWorld [] "J" "http://x" 1 2).1
        [] "K" "http://x" 3 4).1.db.tasks
      ≠ (ScheduleTask sampleCodec emptyWorld [] "J" "http://x" 1 2).1.db.tasks := by
  decide

/-- C5, as the code behaves: when the store holds no seed with the URL, name
and URL fit their columns (at most 255 characters) and both tables have a free
next key, `ScheduleTask` appends one seed row with that URL and one task row
with the given name, that URL and status Stopped, both under a key no earlier
row has, and changes no other row of the store. -/
theorem schedule_creates_seed_and_task (json : JSON) (w : World) (jobs : List Job)
    (name url : String) (priority : Int) (interval : Nat)
    (hnew : ∀ r ∈ w.db.seeds, r.Url ≠ url)
    (hname : name.length ≤ 255) (hurl : url.length ≤ 255)
    (hseedKey : nextID (w.db.seeds.map Seed.ID) ≤ maxKey)
    (htaskKey : nextID (w.db.tasks.map Task.ID) ≤ maxKey) :
    (ScheduleTask json w jobs name url priority interval).1.db.seeds =
      w.db.seeds ++ [⟨nextID (w.db.seeds.map Seed.ID), none, url⟩] ∧
    (ScheduleTask json w jobs name url priority interval).1.db.tasks =
      w.db.tasks ++ [⟨nextID (w.db.tasks.map Task.ID), none, name, url, Stopped⟩] ∧
    (ScheduleTask json w jobs name url priority interval).1.db.urls = w.db.urls ∧
    (∀ r ∈ w.db.seeds, r.ID ≠ nextID (w.db.seeds.map Seed.ID)) ∧
    (∀ r ∈ w.db.tasks, r.ID ≠ nextID (w.db.tasks.map Task.ID)) := by
  have hfn : fits name = true := by simpa [fits] using hname
  have hfu : fits url = true := by simpa [fits] using hurl
  unfold ScheduleTask
  rw [CreateSeed_new w.db url hfu hnew hseedKey]
  have hct := CreateTask_zero
    { w.db with seeds := w.db.seeds ++ [⟨nextID (w.db.seeds.map Seed.ID), none, url⟩] }
    name url hfn hfu htaskKey
  simp only [hct]
  refine ⟨trivial, trivial, trivial, ?_, ?_⟩
  · intro r hr
    exact Nat.ne_of_lt (nextID_fresh _ _ (List.mem_map_of_mem Seed.ID hr))
  · intro r hr
    exact Nat.ne_of_lt (nextID_fresh _ _ (List.mem_map_of_mem Task.ID hr))

/-- Instance of C5: the call `main` makes, on the empty store. -/
theorem schedule_creates_seed_and_task_witness :
    (ScheduleTask sampleCodec emptyWorld [] "Job1" "http://www.example.com" 1 2).1.db.seeds =
      [⟨1, none, "http://www.example.com"⟩] ∧
    (ScheduleTask sampleCodec emptyWorld [] "Job1" "http://www.example.com" 1 2).1.db.tasks =
      [⟨1, none, "Job1", "http://www.example.com", Stopped⟩] :=
  ⟨(schedule_creates_seed_and_task sampleCodec emptyWorld [] "Job1" "http://www.example.com"
      1 2 (by decide) (by decide) (by decide) (by decide) (by decide)).1,
   (schedule_creates_seed_and_task sampleCodec emptyWorld [] "Job1" "http://www.example.com"
      1 2 (by decide) (by decide) (by decide) (by decide) (by decide)).2.1⟩

set_option maxRecDepth 20000 in
/-- C5 as stated fails: on the empty store, which holds no seed at all,
`ScheduleTask` with a URL of 256 characters adds neither a seed row nor a task
row, since the URL fits neither column. -/
theorem schedule_creates_seed_and_task_counterexample :
    longURL.length = 256 ∧
    (∀ r ∈ emptyWorld.db.seeds, r.Url ≠ longURL) ∧
    (ScheduleTask sampleCodec emptyWorld [] "J" longURL 1 2).1.db.seeds = [] ∧
    (ScheduleTask sampleCodec emptyWorld [] "J" longURL 1 2).1.db.tasks = [] := by
  decide

/-- C7, as the code behaves: the visited structure is a sorted set, which holds
a member once.  After `addVisitedURL(u)` at `t1` and again at `t2` it holds
exactly one entry for `u`, with timestamp `t2`; the entries of other URLs are
as before. -/
theorem revisit_replaces_timestamp (rdb : Redis) (u : String) (t1 t2 : Int) (h : t1 < t2) :
    (addVisitedURL t2 (addVisitedURL t1 rdb u) u).visited.filter (fun z => z.Member == u)
      = [⟨t2, u⟩] ∧
    (⟨t1, u⟩ : Z) ∉ (addVisitedURL t2 (addVisitedURL t1 rdb u) u).visited ∧
    (∀ z : Z, z.Member ≠ u →
      (z ∈ (addVisitedURL t2 (addVisitedURL t1 rdb u) u).visited ↔ z ∈ rdb.visited)) := by
  refine ⟨ZAdd_filter_member _ ⟨t2, u⟩, ?_, ?_⟩
  · simp only [addVisitedURL, mem_ZAdd]
    intro hmem
    rcases hmem with heq | ⟨_, hne⟩
    · have : t1 = t2 := congrArg Z.Score heq
      omega
    · exact hne rfl
  · intro z hz
    simp only [addVisitedURL, mem_ZAdd]
    constructor
    · rintro (rfl | ⟨hmem | ⟨hmem, _⟩, _⟩)
      · exact absurd rfl hz
      · exact absurd (congrArg Z.Member hmem) hz
      · exact hmem
    · intro hmem
      exact Or.inr ⟨Or.inr ⟨hmem, hz⟩, hz⟩

/-- Instance of C7, at times 1 and 2 on an empty visited set. -/
theorem revisit_replaces_timestamp_witness :
    (addVisitedURL 2 (addVisitedURL 1 emptyWorld.rdb "http://x") "http://x").visited.filter
      (fun z => z.Member == "http://x") = [⟨2, "http://x"⟩] :=
  (revisit_replaces_timestamp emptyWorld.rdb "http://x" 1 2 (by decide)).1

/-- C7 as stated fails: after visits of one URL at times 1 and 2 the visited
structure holds a single entry, and none with timestamp 1. -/
theorem revisit_counterexample :
    (addVisitedURL 2 (addVisitedURL 1 emptyWorld.rdb "http://x") "http://x").visited
      = [⟨2, "http://x"⟩] ∧
    (⟨1, "http://x"⟩ : Z) ∉
      (addVisitedURL 2 (addVisitedURL 1 emptyWorld.rdb "http://x") "http://x").visited := by
  decide

/-- C10: adding a URL to the discovered set twice gives the state of adding it
once; `addURL` has no error to raise; after it the set holds the URL and
otherwise exactly what it held; and a second run of the crawl step leaves the
discovered set as the first run left it. -/
theorem addURL_idempotent (rdb : Redis) (u : String) :
    addURL (addURL rdb u) u = addURL rdb u ∧
    (∀ v, v ∈ (addURL rdb u).urls ↔ v = u ∨ v ∈ rdb.urls) ∧
    (∀ v, v ∈ (addURL (addURL rdb u) u).urls ↔ v = u ∨ v ∈ rdb.urls) ∧
    (∀ (now1 now2 : Int) (w : World) (url : String),
      (spider now2 (spider now1 w url) url).rdb.urls = (spider now1 w url).rdb.urls) := by
  have hidem : addURL (addURL rdb u) u = addURL rdb u := by
    simp [addURL, SAdd_SAdd]
  refine ⟨hidem, fun v => mem_SAdd _ _ _, ?_, ?_⟩
  · intro v
    rw [hidem]
    exact mem_SAdd _ _ _
  · intro now1 now2 w url
    rw [spider_urls now2, spider_urls now1]
    apply foldl_SAdd_of_subset
    intro v hv
    exact (mem_foldl_SAdd _ _ _).mpr (Or.inl hv)

/-- C6: with at least `n` tasks enqueued by `AddTaskToQueue` onto an empty
ready queue (their payloads reading back with the same id), `n` firings of the
trigger registered by `ScheduleTask` push the ids of the `n` earliest-enqueued
tasks onto the worker queue, oldest first and one per firing, remove exactly
those `n` payloads from the ready queue and touch nothing else. -/
theorem trigger_promotes_fifo (json : JSON) (w0 w : World) (name url : String)
    (priority : Int) (interval : Nat) (ts : List Task) (n : Nat)
    (hempty : w.rdb.tasks = []) (hn : n ≤ ts.length)
    (hjson : ∀ t ∈ ts, ∃ s t2, json.Marshal t = Except.ok s ∧
      json.Unmarshal s = Except.ok t2 ∧ t2.ID = t.ID) :
    ∀ job ∈ (ScheduleTask json w0 [] name url priority interval).2,
      job.Do^[n] { w with rdb := enqueueAll json w.rdb ts } =
        { w with rdb := { w.rdb with
            tasks := ((ts.drop n).filterMap (fun t => (json.Marshal t).toOption)).reverse,
            worker := ((ts.take n).map Task.ID).reverse ++ w.rdb.worker } } ∧
      (job.Do^[n] { w with rdb := enqueueAll json w.rdb ts }).rdb.worker.length =
        w.rdb.worker.length + n ∧
      (enqueueAll json w.rdb ts).tasks =
        (job.Do^[n] { w with rdb := enqueueAll json w.rdb ts }).rdb.tasks ++
          ((ts.take n).filterMap (fun t => (json.Marshal t).toOption)).reverse ∧
      (job.Do^[n] { w with rdb := enqueueAll json w.rdb ts }).rdb.tasks.length =
        ts.length - n ∧
      (∀ m, m < n → ∃ t, ts[m]? = some t ∧
        (job.Do^[m + 1] { w with rdb := enqueueAll json w.rdb ts }).rdb.worker =
          t.ID :: (job.Do^[m] { w with rdb := enqueueAll json w.rdb ts }).rdb.worker) := by
  intro job hjob
  rw [mem_ScheduleTask_jobs json w0 name url priority interval job hjob]
  have hfm : ∀ l : List Task, (∀ t ∈ l, t ∈ ts) →
      (l.filterMap (fun t => (json.Marshal t).toOption)).length = l.length := by
    intro l hl
    have := payloads_forall₂ json l (fun t ht => hjson t (hl t ht))
    rw [this.length_eq, List.length_map]
  refine ⟨trigger_promotes json w ts n hempty hn hjson, ?_, ?_, ?_, ?_⟩
  · rw [trigger_promotes json w ts n hempty hn hjson]
    simp only [List.length_append, List.length_reverse, List.length_map, List.length_take]
    omega
  · rw [trigger_promotes json w ts n hempty hn hjson, enqueueAll_eq, hempty, List.append_nil,
      ← List.reverse_append, ← List.filterMap_append, List.take_append_drop]
  · rw [trigger_promotes json w ts n hempty hn hjson]
    simp only [List.length_reverse]
    rw [hfm _ (fun t ht => List.mem_of_mem_drop ht), List.length_drop]
  · intro m hm
    have hmlt : m < ts.length := Nat.lt_of_lt_of_le hm hn
    refine ⟨ts[m], List.getElem?_eq_getElem hmlt, ?_⟩
    have htake : (ts.take (m + 1)).map Task.ID = (ts.take m).map Task.ID ++ [ts[m].ID] := by
      rw [List.take_succ, List.map_append, List.getElem?_eq_getElem hmlt]
      rfl
    rw [trigger_promotes json w ts (m + 1) hempty (by omega) hjson,
      trigger_promotes json w ts m hempty (by omega) hjson]
    show ((ts.take (m + 1)).map Task.ID).reverse ++ w.rdb.worker =
      ts[m].ID :: (((ts.take m).map Task.ID).reverse ++ w.rdb.worker)
    rw [htake]
    simp

/-- Instance of C6: three tasks enqueued, two firings. -/
theorem trigger_promotes_fifo_witness :
    (trigger sampleCodec)^[2]
        ⟨emptyWorld.db, enqueueAll sampleCodec emptyWorld.rdb
            [⟨11, none, "a", "http://a", Running⟩, ⟨12, none, "b", "http://b", Running⟩,
              ⟨13, none, "c", "http://c", Running⟩], emptyWorld.log⟩ =
      ⟨emptyWorld.db, ⟨[], [], ["13"], [12, 11]⟩, emptyWorld.log⟩ :=
  (trigger_promotes_fifo sampleCodec emptyWorld emptyWorld "Job1" "http://www.example.com" 1 2
    [⟨11, none, "a", "http://a", Running⟩, ⟨12, none, "b", "http://b", Running⟩,
      ⟨13, none, "c", "http://c", Running⟩] 2 rfl (by decide)
    (by
      intro t ht
      simp only [List.mem_cons, List.mem_singleton, List.not_mem_nil, or_false] at ht
      rcases ht with rfl | rfl | rfl
      · exact ⟨"11", ⟨11, none, "", "", ""⟩, rfl, rfl, rfl⟩
      · exact ⟨"12", ⟨12, none, "", "", ""⟩, rfl, rfl, rfl⟩
      · exact ⟨"13", ⟨13, none, "", "", ""⟩, rfl, rfl, rfl⟩)
    ⟨2, trigger sampleCodec⟩ (List.mem_singleton_self _)).1

/-- C9: a firing of the trigger registered by `ScheduleTask` on an empty ready
queue changes neither queue (nor anything but the log); a firing whose payload
does not deserialize drops that payload from the ready queue and leaves the
worker queue as it was; either way the firing returns, and the next firing
works as usual: it promotes the next readable payload. -/
theorem trigger_skips_bad_tick (json : JSON) (w0 w : World) (name url : String)
    (priority : Int) (interval : Nat) :
    ∀ job ∈ (ScheduleTask json w0 [] name url priority interval).2,
      (w.rdb.tasks = [] →
        (job.Do w).rdb = w.rdb ∧ (job.Do w).db = w.db ∧
        ∀ (payload : String) (t : Task), json.Unmarshal payload = Except.ok t →
          (job.Do { job.Do w with rdb := { (job.Do w).rdb with tasks := [payload] } }).rdb
            = { w.rdb with worker := LPush w.rdb.worker t.ID }) ∧
      (∀ (rest : List String) (payload e : String), w.rdb.tasks = rest ++ [payload] →
        json.Unmarshal payload = Except.error e →
        (job.Do w).rdb = { w.rdb with tasks := rest } ∧
        (job.Do w).rdb.worker = w.rdb.worker ∧
        (job.Do w).rdb.tasks = rest ∧
        (job.Do w).db = w.db ∧
        ∀ (rest2 : List String) (next : String) (t : Task), rest = rest2 ++ [next] →
          json.Unmarshal next = Except.ok t →
          (job.Do (job.Do w)).rdb =
            { w.rdb with tasks := rest2, worker := LPush w.rdb.worker t.ID }) := by
  intro job hjob
  rw [mem_ScheduleTask_jobs json w0 name url priority interval job hjob]
  constructor
  · intro hempty
    rw [trigger_empty json w hempty]
    refine ⟨rfl, rfl, ?_⟩
    intro payload t hok
    rw [trigger_ok json _ [] payload t rfl hok]
    simp [hempty]
  · intro rest payload e hq herr
    rw [trigger_error json w rest payload e hq herr]
    refine ⟨rfl, rfl, rfl, rfl, ?_⟩
    intro rest2 next t hrest hok
    rw [trigger_ok json _ rest2 next t hrest hok]

/-- Instance of C9: a ready queue holding a readable payload behind an
unreadable one; the first firing drops the latter, the second promotes task 7. -/
theorem trigger_skips_bad_tick_witness :
    (trigger sampleCodec ⟨emptyWorld.db, ⟨[], [], ["7", "oops"], [5]⟩, []⟩).rdb
      = ⟨[], [], ["7"], [5]⟩ ∧
    (trigger sampleCodec (trigger sampleCodec
        ⟨emptyWorld.db, ⟨[], [], ["7", "oops"], [5]⟩, []⟩)).rdb
      = ⟨[], [], [], [7, 5]⟩ :=
  ⟨((trigger_skips_bad_tick sampleCodec emptyWorld
      ⟨emptyWorld.db, ⟨[], [], ["7", "oops"], [5]⟩, []⟩ "Job1" "http://www.example.com" 1 2
      ⟨2, trigger sampleCodec⟩ (List.mem_singleton_self _)).2
        ["7"] "oops" "invalid character" rfl rfl).1,
   ((trigger_skips_bad_tick sampleCodec emptyWorld
      ⟨emptyWorld.db, ⟨[], [], ["7", "oops"], [5]⟩, []⟩ "Job1" "http://www.example.com" 1 2
      ⟨2, trigger sampleCodec⟩ (List.mem_singleton_self _)).2
        ["7"] "oops" "invalid character" rfl rfl).2.2.2.2 [] "7" ⟨7, none, "", "", ""⟩ rfl rfl⟩

end SpiderScheduler
